import Mathlib

/-!
Verification of the command-line flag parsing library `flag.h`.

The embedding models C strings as `List Char` (NUL-free, as produced by a C
argv), the process-wide `Flag_Context` as an explicit record threaded through
every operation, and `flag_parse` as a fuel-indexed loop returning `none` only
on fuel exhaustion (the entry point supplies sufficient fuel).  `strtoull` with
base 10 is modelled after the C standard: optional leading whitespace, an
optional single sign, then decimal digits; on overflow it yields `ULLONG_MAX`
and reports a range error (the code calls it with `errno` assumed clear).
-/

namespace FlagH

/-- C strings (the bytes of a NUL-terminated string, without the NUL). -/
abbrev CStr := List Char

/-- Mirrors `Flag_Type` in flag.h. -/
inductive Flag_Type where
  | FLAG_BOOL
  | FLAG_UINT64
  | FLAG_STR
  deriving DecidableEq, Repr

/-- Mirrors the union `Flag_Value`; the flag's `type` tag fixes which arm is
active, so a sum type is a faithful rendering.  `as_uint64` carries the value
of a C `uint64_t` as a `Nat` (callers supply values below `2 ^ 64`). -/
inductive Flag_Value where
  | as_str : CStr → Flag_Value
  | as_uint64 : Nat → Flag_Value
  | as_bool : Bool → Flag_Value
  deriving DecidableEq, Repr

/-- Mirrors `Flag_Error` in flag.h. -/
inductive Flag_Error where
  | FLAG_NO_ERROR
  | FLAG_ERROR_UNKNOWN
  | FLAG_ERROR_NO_VALUE
  | FLAG_ERROR_INVALID_NUMBER
  | FLAG_ERROR_INTEGER_OVERFLOW
  deriving DecidableEq, Repr

/-- Mirrors `struct Flag`; the C field `def` is rendered `defVal` (Lean keyword). -/
structure Flag where
  type : Flag_Type
  name : CStr
  desc : CStr
  val : Flag_Value
  defVal : Flag_Value
  deriving DecidableEq, Repr

def FLAGS_CAP : Nat := 256

/-- Mirrors `Flag_Context`: the `flags` array together with `flags_count` is a
list, `flag_error_name` is a nullable C string (`none` = NULL). -/
structure Flag_Context where
  flags : List Flag
  flag_error : Flag_Error
  flag_error_name : Option CStr
  rest_argc : Nat
  rest_argv : List CStr
  deriving DecidableEq, Repr

/-- The zero-initialized `flag_global_context` before any declaration. -/
def flag_global_context : Flag_Context :=
  { flags := [], flag_error := .FLAG_NO_ERROR, flag_error_name := none,
    rest_argc := 0, rest_argv := [] }

/-- `flag_bool`: `flag_new` appends a fresh flag (aborting at capacity, modelled
as `none`) and the declaration sets both `val` and `def` to the default. -/
def flag_bool (c : Flag_Context) (name : CStr) (defVal : Bool) (desc : CStr) :
    Option Flag_Context :=
  if c.flags.length < FLAGS_CAP then
    some { c with flags := c.flags ++
      [{ type := .FLAG_BOOL, name := name, desc := desc,
         val := .as_bool defVal, defVal := .as_bool defVal }] }
  else none

/-- `flag_uint64`, as `flag_bool`. -/
def flag_uint64 (c : Flag_Context) (name : CStr) (defVal : Nat) (desc : CStr) :
    Option Flag_Context :=
  if c.flags.length < FLAGS_CAP then
    some { c with flags := c.flags ++
      [{ type := .FLAG_UINT64, name := name, desc := desc,
         val := .as_uint64 defVal, defVal := .as_uint64 defVal }] }
  else none

/-- `flag_str`, as `flag_bool` (the default is a possibly-NULL `char *`; claims
only concern non-NULL values, rendered as plain `CStr`). -/
def flag_str (c : Flag_Context) (name : CStr) (defVal : CStr) (desc : CStr) :
    Option Flag_Context :=
  if c.flags.length < FLAGS_CAP then
    some { c with flags := c.flags ++
      [{ type := .FLAG_STR, name := name, desc := desc,
         val := .as_str defVal, defVal := .as_str defVal }] }
  else none

/-- C `isspace` for the default locale. -/
def isSpaceC (ch : Char) : Bool :=
  ch = ' ' || ch = '\t' || ch = '\n' || ch = '\x0b' || ch = '\x0c' || ch = '\r'

/-- Numeric value of a decimal digit string. -/
def digitsVal (ds : List Char) : Nat :=
  ds.foldl (fun a ch => a * 10 + (ch.toNat - 48)) 0

def ULLONG_MAX : Nat := 2 ^ 64 - 1

/-- Digit-conversion phase of `strtoull10`, after whitespace (`wsLen` chars)
and an optional sign (`signLen` chars, negative if `neg`) are skipped:
`r2` is the tail the digits are read from.  No digits means no conversion
(`endptr = s`, value 0, per the C standard). -/
def strtoull10_core (neg : Bool) (signLen wsLen : Nat) (r2 : CStr) : Nat × Nat × Bool :=
  if r2.takeWhile Char.isDigit = [] then (0, 0, false)
  else if ULLONG_MAX < digitsVal (r2.takeWhile Char.isDigit) then
    (ULLONG_MAX, wsLen + signLen + (r2.takeWhile Char.isDigit).length, true)
  else ((if neg then (2 ^ 64 - digitsVal (r2.takeWhile Char.isDigit)) % 2 ^ 64
         else digitsVal (r2.takeWhile Char.isDigit)),
        wsLen + signLen + (r2.takeWhile Char.isDigit).length, false)

/-- `strtoull(s, &endptr, 10)` per the C standard, with `errno` clear on entry:
returns `(value, endptr offset, range error)`.  Leading whitespace and one
optional sign are skipped; a `'-'` sign negates modulo `2 ^ 64`; a digit string
exceeding `ULLONG_MAX` yields `ULLONG_MAX` with the range error set. -/
def strtoull10 (s : CStr) : Nat × Nat × Bool :=
  match s.dropWhile isSpaceC with
  | [] => strtoull10_core false 0 (s.takeWhile isSpaceC).length []
  | ch :: r2 =>
    if ch = '-' then strtoull10_core true 1 (s.takeWhile isSpaceC).length r2
    else if ch = '+' then strtoull10_core false 1 (s.takeWhile isSpaceC).length r2
    else strtoull10_core false 0 (s.takeWhile isSpaceC).length (ch :: r2)

/-- The check `*flag != '-'` (an empty token has `*flag = NUL`). -/
def starts_with_dash : CStr → Bool
  | [] => false
  | ch :: _ => ch = '-'

/-- Outcome of the registry scan (`for` loop over `c->flags`) for one token:
either an early `return false` carrying the error and the flag array at that
point, or fall-through with the updated array, remaining args and `found`. -/
inductive InnerOut where
  | fail (err : Flag_Error) (errName : CStr) (flags : List Flag)
  | done (flags : List Flag) (args : List CStr) (found : Bool)
  deriving DecidableEq, Repr

/-- Re-attach a scanned flag in front of the rest of the scan's outcome. -/
def innerCons (f : Flag) : InnerOut → InnerOut
  | .fail err n flags => .fail err n (f :: flags)
  | .done flags args found => .done (f :: flags) args found

/-- The registry scan of `flag_parse` for the token named `name` (dash already
stripped): every flag is visited in declaration order — there is no early exit
on a match — and each match is handled per its type, consuming value tokens
from `args` as it goes. -/
def flag_inner (name : CStr) : List Flag → List CStr → Bool → InnerOut
  | [], args, found => .done [] args found
  | f :: fs, args, found =>
    if f.name = name then
      if f.type = .FLAG_BOOL then
        innerCons { f with val := .as_bool true } (flag_inner name fs args true)
      else if f.type = .FLAG_STR then
        match args with
        | [] => .fail .FLAG_ERROR_NO_VALUE name (f :: fs)
        | a :: rest => innerCons { f with val := .as_str a } (flag_inner name fs rest true)
      else
        -- remaining case of the closed enum: FLAG_UINT64 (the C switch's
        -- `default:` is unreachable)
        -- `result = strtoull(arg, &endptr, 10)`: value `.1`, endptr offset
        -- `.2.1`, range error `.2.2`; `arg == endptr` is offset 0 and
        -- `*endptr != NUL` is an offset short of the end
        match args with
        | [] => .fail .FLAG_ERROR_NO_VALUE name (f :: fs)
        | a :: rest =>
          if (strtoull10 a).2.1 = 0 ∨ (strtoull10 a).2.1 ≠ a.length then
            .fail .FLAG_ERROR_INVALID_NUMBER name (f :: fs)
          else if (strtoull10 a).2.2 = true then
            .fail .FLAG_ERROR_INTEGER_OVERFLOW name (f :: fs)
          else
            innerCons { f with val := .as_uint64 (strtoull10 a).1 } (flag_inner name fs rest true)
    else innerCons f (flag_inner name fs args found)

/-- The flag array carried by either outcome of the registry scan. -/
def innerFlags : InnerOut → List Flag
  | .fail _ _ flags => flags
  | .done flags _ _ => flags

/-- Re-attach a list of scanned flags in front of a scan outcome. -/
def innerConsAll (pre : List Flag) (x : InnerOut) : InnerOut :=
  pre.foldr innerCons x

/-- The `while (argc > 0)` loop of `flag_parse` (the program name is already
shifted off).  `fuel` only bounds the iteration count: `none` means exhaustion,
which never happens for `fuel > args.length` (`flag_parse` supplies that). -/
def flag_parse_loop : Nat → Flag_Context → List CStr → Option (Flag_Context × Bool)
  | 0, _, _ => none
  | _ + 1, c, [] => some ({ c with rest_argc := 0, rest_argv := [] }, true)
  | fuel + 1, c, flag :: args =>
    if starts_with_dash flag = false then
      some ({ c with rest_argc := args.length + 1, rest_argv := flag :: args }, true)
    else if flag = ['-', '-'] then
      some ({ c with rest_argc := args.length, rest_argv := args }, true)
    else
      match flag_inner flag.tail c.flags args false with
      | .fail err errName flags1 =>
        some ({ c with
                flags := flags1
                flag_error := err
                flag_error_name := some errName }, false)
      | .done flags1 args1 found =>
        if found then flag_parse_loop fuel { c with flags := flags1 } args1
        else
          some ({ c with
                  flags := flags1
                  flag_error := .FLAG_ERROR_UNKNOWN
                  flag_error_name := some flag.tail }, false)

/-- `flag_parse(argc, argv)`: asserts `argc > 0` (modelled `none` on an empty
argv), discards the program name, then runs the loop with ample fuel. -/
def flag_parse (c : Flag_Context) (argv : List CStr) : Option (Flag_Context × Bool) :=
  match argv with
  | [] => none
  | _ :: args => flag_parse_loop (args.length + 1) c args

def flag_rest_argc (c : Flag_Context) : Nat := c.rest_argc

def flag_rest_argv (c : Flag_Context) : List CStr := c.rest_argv

/-- `flag_print_error`: the line written to the stream.  A NULL error name
(impossible after any error) is rendered as the empty string. -/
def flag_print_error (c : Flag_Context) : CStr :=
  match c.flag_error with
  | .FLAG_NO_ERROR =>
    ("Operation Failed Successfully! Please tell the developer of this software that they don\x27t know what they are doing! :)").toList
  | .FLAG_ERROR_UNKNOWN =>
    "ERROR: -".toList ++ c.flag_error_name.getD [] ++ ": unknown flag\n".toList
  | .FLAG_ERROR_NO_VALUE =>
    "ERROR: -".toList ++ c.flag_error_name.getD [] ++ ": no value provided\n".toList
  | .FLAG_ERROR_INVALID_NUMBER =>
    "ERROR: -".toList ++ c.flag_error_name.getD [] ++ ": invalid number\n".toList
  | .FLAG_ERROR_INTEGER_OVERFLOW =>
    "ERROR: -".toList ++ c.flag_error_name.getD [] ++ ": integer overflow\n".toList

/-! ### Lemmas about the registry scan -/

theorem flag_inner_nil (name : CStr) (args : List CStr) (found : Bool) :
    flag_inner name [] args found = .done [] args found := rfl

/-- Unfolding lemma for the cons case of `flag_inner` (the generated equation
lemmas do not iota-reduce the outer match). -/
theorem flag_inner_cons (name : CStr) (f : Flag) (fs : List Flag) (args : List CStr)
    (found : Bool) :
    flag_inner name (f :: fs) args found =
      if f.name = name then
        if f.type = .FLAG_BOOL then
          innerCons { f with val := .as_bool true } (flag_inner name fs args true)
        else if f.type = .FLAG_STR then
          match args with
          | [] => .fail .FLAG_ERROR_NO_VALUE name (f :: fs)
          | a :: rest => innerCons { f with val := .as_str a } (flag_inner name fs rest true)
        else
          match args with
          | [] => .fail .FLAG_ERROR_NO_VALUE name (f :: fs)
          | a :: rest =>
            if (strtoull10 a).2.1 = 0 ∨ (strtoull10 a).2.1 ≠ a.length then
              .fail .FLAG_ERROR_INVALID_NUMBER name (f :: fs)
            else if (strtoull10 a).2.2 = true then
              .fail .FLAG_ERROR_INTEGER_OVERFLOW name (f :: fs)
            else
              innerCons { f with val := .as_uint64 (strtoull10 a).1 } (flag_inner name fs rest true)
      else innerCons f (flag_inner name fs args found) := rfl

theorem innerFlags_innerCons (f : Flag) (x : InnerOut) :
    innerFlags (innerCons f x) = f :: innerFlags x := by
  cases x <;> rfl

theorem innerConsAll_fail (pre : List Flag) (e : Flag_Error) (en : CStr) (fl : List Flag) :
    innerConsAll pre (.fail e en fl) = .fail e en (pre ++ fl) := by
  induction pre with
  | nil => rfl
  | cons g pre ih => simp [innerConsAll, List.foldr] at ih ⊢; simp [ih, innerCons]

theorem innerConsAll_done (pre : List Flag) (fl : List Flag) (args : List CStr) (found : Bool) :
    innerConsAll pre (.done fl args found) = .done (pre ++ fl) args found := by
  induction pre with
  | nil => rfl
  | cons g pre ih => simp [innerConsAll, List.foldr] at ih ⊢; simp [ih, innerCons]

/-- A scan over flags none of which bear the searched name changes nothing and
leaves `found` as it was. -/
theorem inner_nomatch {n : CStr} : ∀ fs args found, (∀ g ∈ fs, g.name ≠ n) →
    flag_inner n fs args found = .done fs args found := by
  intro fs
  induction fs with
  | nil => intro args found _; simp [flag_inner]
  | cons f fs ih =>
    intro args found h
    have hf : f.name ≠ n := h f (by simp)
    rw [flag_inner_cons, if_neg hf, ih args found (fun g hg => h g (by simp [hg]))]
    rfl

/-- The scan distributes over a prefix of flags with non-matching names. -/
theorem inner_skip {n : CStr} : ∀ pre fs args found, (∀ g ∈ pre, g.name ≠ n) →
    flag_inner n (pre ++ fs) args found = innerConsAll pre (flag_inner n fs args found) := by
  intro pre
  induction pre with
  | nil => intro fs args found _; rfl
  | cons g pre ih =>
    intro fs args found h
    have hg : g.name ≠ n := h g (by simp)
    rw [List.cons_append, flag_inner_cons, if_neg hg,
      ih fs args found (fun a ha => h a (by simp [ha]))]
    rfl

theorem flag_inner_cons_nomatch {n : CStr} {f : Flag} (h : f.name ≠ n) (fs : List Flag)
    (args : List CStr) (found : Bool) :
    flag_inner n (f :: fs) args found = innerCons f (flag_inner n fs args found) := by
  rw [flag_inner_cons, if_neg h]

theorem flag_inner_cons_bool {n : CStr} {f : Flag} (h : f.name = n) (ht : f.type = .FLAG_BOOL)
    (fs : List Flag) (args : List CStr) (found : Bool) :
    flag_inner n (f :: fs) args found =
      innerCons { f with val := .as_bool true } (flag_inner n fs args true) := by
  rw [flag_inner_cons, if_pos h, if_pos ht]

theorem flag_inner_cons_str_nil {n : CStr} {f : Flag} (h : f.name = n) (ht : f.type = .FLAG_STR)
    (fs : List Flag) (found : Bool) :
    flag_inner n (f :: fs) [] found = .fail .FLAG_ERROR_NO_VALUE n (f :: fs) := by
  rw [flag_inner_cons, if_pos h, if_neg (by simp [ht]), if_pos ht]

theorem flag_inner_cons_str {n : CStr} {f : Flag} (h : f.name = n) (ht : f.type = .FLAG_STR)
    (fs : List Flag) (a : CStr) (rest : List CStr) (found : Bool) :
    flag_inner n (f :: fs) (a :: rest) found =
      innerCons { f with val := .as_str a } (flag_inner n fs rest true) := by
  rw [flag_inner_cons, if_pos h, if_neg (by simp [ht]), if_pos ht]

theorem flag_inner_cons_u64_nil {n : CStr} {f : Flag} (h : f.name = n)
    (ht : f.type = .FLAG_UINT64) (fs : List Flag) (found : Bool) :
    flag_inner n (f :: fs) [] found = .fail .FLAG_ERROR_NO_VALUE n (f :: fs) := by
  rw [flag_inner_cons, if_pos h, if_neg (by simp [ht]), if_neg (by simp [ht])]

theorem flag_inner_cons_u64_invalid {n : CStr} {f : Flag} {a : CStr} (h : f.name = n)
    (ht : f.type = .FLAG_UINT64) (hk : (strtoull10 a).2.1 = 0 ∨ (strtoull10 a).2.1 ≠ a.length)
    (fs : List Flag) (rest : List CStr) (found : Bool) :
    flag_inner n (f :: fs) (a :: rest) found = .fail .FLAG_ERROR_INVALID_NUMBER n (f :: fs) := by
  rw [flag_inner_cons, if_pos h, if_neg (by simp [ht]), if_neg (by simp [ht])]
  exact if_pos hk

theorem flag_inner_cons_u64_overflow {n : CStr} {f : Flag} {a : CStr} (h : f.name = n)
    (ht : f.type = .FLAG_UINT64) (hk : ¬((strtoull10 a).2.1 = 0 ∨ (strtoull10 a).2.1 ≠ a.length))
    (ho : (strtoull10 a).2.2 = true) (fs : List Flag) (rest : List CStr) (found : Bool) :
    flag_inner n (f :: fs) (a :: rest) found =
      .fail .FLAG_ERROR_INTEGER_OVERFLOW n (f :: fs) := by
  rw [flag_inner_cons, if_pos h, if_neg (by simp [ht]), if_neg (by simp [ht])]
  rw [show (match a :: rest with
      | [] => InnerOut.fail .FLAG_ERROR_NO_VALUE n (f :: fs)
      | a :: rest =>
        if (strtoull10 a).2.1 = 0 ∨ (strtoull10 a).2.1 ≠ a.length then
          .fail .FLAG_ERROR_INVALID_NUMBER n (f :: fs)
        else if (strtoull10 a).2.2 = true then .fail .FLAG_ERROR_INTEGER_OVERFLOW n (f :: fs)
        else innerCons { f with val := .as_uint64 (strtoull10 a).1 } (flag_inner n fs rest true)) =
      if (strtoull10 a).2.1 = 0 ∨ (strtoull10 a).2.1 ≠ a.length then
        InnerOut.fail .FLAG_ERROR_INVALID_NUMBER n (f :: fs)
      else if (strtoull10 a).2.2 = true then .fail .FLAG_ERROR_INTEGER_OVERFLOW n (f :: fs)
      else innerCons { f with val := .as_uint64 (strtoull10 a).1 } (flag_inner n fs rest true)
    from rfl, if_neg hk, if_pos ho]

theorem flag_inner_cons_u64_ok {n : CStr} {f : Flag} {a : CStr} (h : f.name = n)
    (ht : f.type = .FLAG_UINT64) (hk : ¬((strtoull10 a).2.1 = 0 ∨ (strtoull10 a).2.1 ≠ a.length))
    (ho : (strtoull10 a).2.2 = false) (fs : List Flag) (rest : List CStr) (found : Bool) :
    flag_inner n (f :: fs) (a :: rest) found =
      innerCons { f with val := .as_uint64 (strtoull10 a).1 } (flag_inner n fs rest true) := by
  rw [flag_inner_cons, if_pos h, if_neg (by simp [ht]), if_neg (by simp [ht])]
  rw [show (match a :: rest with
      | [] => InnerOut.fail .FLAG_ERROR_NO_VALUE n (f :: fs)
      | a :: rest =>
        if (strtoull10 a).2.1 = 0 ∨ (strtoull10 a).2.1 ≠ a.length then
          .fail .FLAG_ERROR_INVALID_NUMBER n (f :: fs)
        else if (strtoull10 a).2.2 = true then .fail .FLAG_ERROR_INTEGER_OVERFLOW n (f :: fs)
        else innerCons { f with val := .as_uint64 (strtoull10 a).1 } (flag_inner n fs rest true)) =
      if (strtoull10 a).2.1 = 0 ∨ (strtoull10 a).2.1 ≠ a.length then
        InnerOut.fail .FLAG_ERROR_INVALID_NUMBER n (f :: fs)
      else if (strtoull10 a).2.2 = true then .fail .FLAG_ERROR_INTEGER_OVERFLOW n (f :: fs)
      else innerCons { f with val := .as_uint64 (strtoull10 a).1 } (flag_inner n fs rest true)
    from rfl, if_neg hk, if_neg (by simp [ho])]

/-- A fall-through registry scan only removes tokens from the front of the
remaining argument list. -/
theorem inner_consumed {n : CStr} : ∀ fs args found fs1 args1 found1,
    flag_inner n fs args found = .done fs1 args1 found1 → ∃ eaten, args = eaten ++ args1 := by
  intro fs
  induction fs with
  | nil =>
    intro args found fs1 args1 found1 h
    rw [flag_inner_nil] at h
    cases h
    exact ⟨[], rfl⟩
  | cons f fs ih =>
    intro args found fs1 args1 found1 h
    by_cases hname : f.name = n
    · cases hty : f.type with
      | FLAG_BOOL =>
        rw [flag_inner_cons_bool hname hty] at h
        cases hrec : flag_inner n fs args true with
        | fail e en fl => rw [hrec] at h; simp [innerCons] at h
        | done fl a2 fo =>
          rw [hrec] at h
          simp only [innerCons] at h
          cases h
          exact ih args true _ _ _ hrec
      | FLAG_STR =>
        cases args with
        | nil => rw [flag_inner_cons_str_nil hname hty] at h; simp at h
        | cons a rest =>
          rw [flag_inner_cons_str hname hty] at h
          cases hrec : flag_inner n fs rest true with
          | fail e en fl => rw [hrec] at h; simp [innerCons] at h
          | done fl a2 fo =>
            rw [hrec] at h
            simp only [innerCons] at h
            cases h
            obtain ⟨eaten, he⟩ := ih rest true _ _ _ hrec
            exact ⟨a :: eaten, by simp [he]⟩
      | FLAG_UINT64 =>
        cases args with
        | nil => rw [flag_inner_cons_u64_nil hname hty] at h; simp at h
        | cons a rest =>
          by_cases hk : (strtoull10 a).2.1 = 0 ∨ (strtoull10 a).2.1 ≠ a.length
          · rw [flag_inner_cons_u64_invalid hname hty hk] at h; simp at h
          · cases ho : (strtoull10 a).2.2 with
            | true => rw [flag_inner_cons_u64_overflow hname hty hk ho] at h; simp at h
            | false =>
              rw [flag_inner_cons_u64_ok hname hty hk ho] at h
              cases hrec : flag_inner n fs rest true with
              | fail e en fl => rw [hrec] at h; simp [innerCons] at h
              | done fl a2 fo =>
                rw [hrec] at h
                simp only [innerCons] at h
                cases h
                obtain ⟨eaten, he⟩ := ih rest true _ _ _ hrec
                exact ⟨a :: eaten, by simp [he]⟩
    · rw [flag_inner_cons_nomatch hname] at h
      cases hrec : flag_inner n fs args found with
      | fail e en fl => rw [hrec] at h; simp [innerCons] at h
      | done fl a2 fo =>
        rw [hrec] at h
        simp only [innerCons] at h
        cases h
        exact ih args found _ _ _ hrec

/-- A fall-through registry scan is insensitive to tokens beyond those it
consumed: appending extra tokens yields the same outcome with the extra tokens
appended to the leftovers. -/
theorem inner_ext {n : CStr} : ∀ fs args found fs1 args1 found1,
    flag_inner n fs args found = .done fs1 args1 found1 →
    ∀ ext, flag_inner n fs (args ++ ext) found = .done fs1 (args1 ++ ext) found1 := by
  intro fs
  induction fs with
  | nil =>
    intro args found fs1 args1 found1 h ext
    rw [flag_inner_nil] at h
    cases h
    rw [flag_inner_nil]
  | cons f fs ih =>
    intro args found fs1 args1 found1 h ext
    by_cases hname : f.name = n
    · cases hty : f.type with
      | FLAG_BOOL =>
        rw [flag_inner_cons_bool hname hty] at h
        rw [flag_inner_cons_bool hname hty]
        cases hrec : flag_inner n fs args true with
        | fail e en fl => rw [hrec] at h; simp [innerCons] at h
        | done fl a2 fo =>
          rw [hrec] at h
          simp only [innerCons] at h
          cases h
          rw [ih args true _ _ _ hrec ext]
          rfl
      | FLAG_STR =>
        cases args with
        | nil => rw [flag_inner_cons_str_nil hname hty] at h; simp at h
        | cons a rest =>
          rw [flag_inner_cons_str hname hty] at h
          rw [List.cons_append, flag_inner_cons_str hname hty]
          cases hrec : flag_inner n fs rest true with
          | fail e en fl => rw [hrec] at h; simp [innerCons] at h
          | done fl a2 fo =>
            rw [hrec] at h
            simp only [innerCons] at h
            cases h
            rw [ih rest true _ _ _ hrec ext]
            rfl
      | FLAG_UINT64 =>
        cases args with
        | nil => rw [flag_inner_cons_u64_nil hname hty] at h; simp at h
        | cons a rest =>
          by_cases hk : (strtoull10 a).2.1 = 0 ∨ (strtoull10 a).2.1 ≠ a.length
          · rw [flag_inner_cons_u64_invalid hname hty hk] at h; simp at h
          · cases ho : (strtoull10 a).2.2 with
            | true => rw [flag_inner_cons_u64_overflow hname hty hk ho] at h; simp at h
            | false =>
              rw [flag_inner_cons_u64_ok hname hty hk ho] at h
              rw [List.cons_append, flag_inner_cons_u64_ok hname hty hk ho]
              cases hrec : flag_inner n fs rest true with
              | fail e en fl => rw [hrec] at h; simp [innerCons] at h
              | done fl a2 fo =>
                rw [hrec] at h
                simp only [innerCons] at h
                cases h
                rw [ih rest true _ _ _ hrec ext]
                rfl
    · rw [flag_inner_cons_nomatch hname] at h
      rw [flag_inner_cons_nomatch hname]
      cases hrec : flag_inner n fs args found with
      | fail e en fl => rw [hrec] at h; simp [innerCons] at h
      | done fl a2 fo =>
        rw [hrec] at h
        simp only [innerCons] at h
        cases h
        rw [ih args found _ _ _ hrec ext]
        rfl

/-- The registry scan never touches a flag whose name differs from the searched
name, whether it falls through or returns early with an error. -/
theorem inner_frame {n : CStr} : ∀ fs args found j f, fs.get? j = some f → f.name ≠ n →
    (innerFlags (flag_inner n fs args found)).get? j = some f := by
  intro fs
  induction fs with
  | nil => intro args found j f hj _; simp at hj
  | cons g fs ih =>
    intro args found j f hj hf
    cases j with
    | zero =>
      rw [List.get?_cons_zero] at hj
      cases hj
      rw [flag_inner_cons_nomatch hf, innerFlags_innerCons, List.get?_cons_zero]
    | succ j =>
      rw [List.get?_cons_succ] at hj
      by_cases hname : g.name = n
      · cases hty : g.type with
        | FLAG_BOOL =>
          rw [flag_inner_cons_bool hname hty, innerFlags_innerCons, List.get?_cons_succ]
          exact ih args true j f hj hf
        | FLAG_STR =>
          cases args with
          | nil =>
            rw [flag_inner_cons_str_nil hname hty]
            simpa [innerFlags] using hj
          | cons a rest =>
            rw [flag_inner_cons_str hname hty, innerFlags_innerCons, List.get?_cons_succ]
            exact ih rest true j f hj hf
        | FLAG_UINT64 =>
          cases args with
          | nil =>
            rw [flag_inner_cons_u64_nil hname hty]
            simpa [innerFlags] using hj
          | cons a rest =>
            by_cases hk : (strtoull10 a).2.1 = 0 ∨ (strtoull10 a).2.1 ≠ a.length
            · rw [flag_inner_cons_u64_invalid hname hty hk]
              simpa [innerFlags] using hj
            · cases ho : (strtoull10 a).2.2 with
              | true =>
                rw [flag_inner_cons_u64_overflow hname hty hk ho]
                simpa [innerFlags] using hj
              | false =>
                rw [flag_inner_cons_u64_ok hname hty hk ho, innerFlags_innerCons,
                  List.get?_cons_succ]
                exact ih rest true j f hj hf
      · rw [flag_inner_cons_nomatch hname, innerFlags_innerCons, List.get?_cons_succ]
        exact ih args found j f hj hf

/-! ### Lemmas about the parse loop -/

theorem flag_parse_loop_zero (c : Flag_Context) (args : List CStr) :
    flag_parse_loop 0 c args = none := rfl

theorem flag_parse_loop_nil (fuel : Nat) (c : Flag_Context) :
    flag_parse_loop (fuel + 1) c [] = some ({ c with rest_argc := 0, rest_argv := [] }, true) :=
  rfl

/-- One iteration on a positional token: stop, pushing the token back into the
leftovers. -/
theorem flag_parse_loop_positional {flag : CStr} (h : starts_with_dash flag = false)
    (fuel : Nat) (c : Flag_Context) (args : List CStr) :
    flag_parse_loop (fuel + 1) c (flag :: args) =
      some ({ c with rest_argc := args.length + 1, rest_argv := flag :: args }, true) := by
  rw [flag_parse_loop, if_pos h]

/-- One iteration on the bare terminator: stop, leftovers start after it. -/
theorem flag_parse_loop_term (fuel : Nat) (c : Flag_Context) (args : List CStr) :
    flag_parse_loop (fuel + 1) c (['-', '-'] :: args) =
      some ({ c with rest_argc := args.length, rest_argv := args }, true) := rfl

/-- One iteration on a dash token: dispatch on the registry scan's outcome. -/
theorem flag_parse_loop_dash {flag : CStr} (h1 : starts_with_dash flag = true)
    (h2 : flag ≠ ['-', '-']) (fuel : Nat) (c : Flag_Context) (args : List CStr) :
    flag_parse_loop (fuel + 1) c (flag :: args) =
      match flag_inner flag.tail c.flags args false with
      | .fail err errName flags1 =>
        some ({ c with
                flags := flags1
                flag_error := err
                flag_error_name := some errName }, false)
      | .done flags1 args1 found =>
        if found then flag_parse_loop fuel { c with flags := flags1 } args1
        else
          some ({ c with
                  flags := flags1
                  flag_error := .FLAG_ERROR_UNKNOWN
                  flag_error_name := some flag.tail }, false) := by
  rw [flag_parse_loop, if_neg (by simp [h1]), if_neg h2]

theorem flag_parse_loop_dash_fail {flag : CStr} {c : Flag_Context} {args : List CStr}
    {e : Flag_Error} {en : CStr} {fl : List Flag} (h1 : starts_with_dash flag = true)
    (h2 : flag ≠ ['-', '-']) (hinner : flag_inner flag.tail c.flags args false = .fail e en fl)
    (fuel : Nat) :
    flag_parse_loop (fuel + 1) c (flag :: args) =
      some ({ c with flags := fl, flag_error := e, flag_error_name := some en }, false) := by
  rw [flag_parse_loop_dash h1 h2, hinner]

theorem flag_parse_loop_dash_found {flag : CStr} {c : Flag_Context} {args : List CStr}
    {fl : List Flag} {args1 : List CStr} (h1 : starts_with_dash flag = true)
    (h2 : flag ≠ ['-', '-']) (hinner : flag_inner flag.tail c.flags args false = .done fl args1 true)
    (fuel : Nat) :
    flag_parse_loop (fuel + 1) c (flag :: args) =
      flag_parse_loop fuel { c with flags := fl } args1 := by
  rw [flag_parse_loop_dash h1 h2, hinner]
  rfl

theorem flag_parse_loop_dash_unknown {flag : CStr} {c : Flag_Context} {args : List CStr}
    {fl : List Flag} {args1 : List CStr} (h1 : starts_with_dash flag = true)
    (h2 : flag ≠ ['-', '-'])
    (hinner : flag_inner flag.tail c.flags args false = .done fl args1 false) (fuel : Nat) :
    flag_parse_loop (fuel + 1) c (flag :: args) =
      some ({ c with
              flags := fl
              flag_error := .FLAG_ERROR_UNKNOWN
              flag_error_name := some flag.tail }, false) := by
  rw [flag_parse_loop_dash h1 h2, hinner]
  rfl

/-- A run of the loop that returns success never writes the error slot. -/
theorem loop_success_error : ∀ fuel c args c1, flag_parse_loop fuel c args = some (c1, true) →
    c1.flag_error = c.flag_error ∧ c1.flag_error_name = c.flag_error_name := by
  intro fuel
  induction fuel with
  | zero => intro c args c1 h; rw [flag_parse_loop_zero] at h; cases h
  | succ fuel ih =>
    intro c args c1 h
    cases args with
    | nil =>
      rw [flag_parse_loop_nil] at h
      simp only [Option.some.injEq, Prod.mk.injEq, and_true] at h
      subst h
      exact ⟨rfl, rfl⟩
    | cons flag args =>
      cases hd : starts_with_dash flag with
      | false =>
        rw [flag_parse_loop_positional hd] at h
        simp only [Option.some.injEq, Prod.mk.injEq, and_true] at h
        subst h
        exact ⟨rfl, rfl⟩
      | true =>
        by_cases h2 : flag = ['-', '-']
        · subst h2
          rw [flag_parse_loop_term] at h
          simp only [Option.some.injEq, Prod.mk.injEq, and_true] at h
          subst h
          exact ⟨rfl, rfl⟩
        · cases hinner : flag_inner flag.tail c.flags args false with
          | fail e en fl =>
            rw [flag_parse_loop_dash_fail hd h2 hinner] at h
            simp at h
          | done fl args1 found =>
            cases found with
            | false =>
              rw [flag_parse_loop_dash_unknown hd h2 hinner] at h
              simp at h
            | true =>
              rw [flag_parse_loop_dash_found hd h2 hinner] at h
              exact ih { c with flags := fl } args1 c1 h

/-- The loop's outcome does not depend on the fuel, as long as the fuel
exceeds the number of remaining tokens. -/
theorem loop_fuel_irrel : ∀ fuel fuel' c args, args.length < fuel → args.length < fuel' →
    flag_parse_loop fuel c args = flag_parse_loop fuel' c args := by
  intro fuel
  induction fuel with
  | zero => intro fuel' c args h _; exact absurd h (Nat.not_lt_zero _)
  | succ fuel ih =>
    intro fuel' c args h h'
    cases fuel' with
    | zero => exact absurd h' (Nat.not_lt_zero _)
    | succ fuel' =>
      cases args with
      | nil => rw [flag_parse_loop_nil, flag_parse_loop_nil]
      | cons flag args =>
        cases hd : starts_with_dash flag with
        | false => rw [flag_parse_loop_positional hd, flag_parse_loop_positional hd]
        | true =>
          by_cases h2 : flag = ['-', '-']
          · subst h2
            rw [flag_parse_loop_term, flag_parse_loop_term]
          · cases hinner : flag_inner flag.tail c.flags args false with
            | fail e en fl =>
              rw [flag_parse_loop_dash_fail hd h2 hinner,
                flag_parse_loop_dash_fail hd h2 hinner]
            | done fl args1 found =>
              cases found with
              | false =>
                rw [flag_parse_loop_dash_unknown hd h2 hinner,
                  flag_parse_loop_dash_unknown hd h2 hinner]
              | true =>
                rw [flag_parse_loop_dash_found hd h2 hinner,
                  flag_parse_loop_dash_found hd h2 hinner]
                obtain ⟨eaten, he⟩ := inner_consumed _ _ _ _ _ _ hinner
                have hlen : args1.length ≤ args.length := by
                  have := congrArg List.length he
                  simp only [List.length_append] at this
                  omega
                have hc : (flag :: args).length = args.length + 1 := List.length_cons _ _
                exact ih fuel' _ args1 (by omega) (by omega)

/-- Sequencing: if the loop consumes `pre` completely and successfully (no
positional stop — the final leftovers are empty — and no terminator inside
`pre`), then running it on `pre ++ post` is running it on `post` from the state
reached after `pre`, with the leftover fields still untouched. -/
theorem parse_seq : ∀ fuel1 c pre c1, flag_parse_loop fuel1 c pre = some (c1, true) →
    c1.rest_argv = [] → ['-', '-'] ∉ pre → ∀ post fuel, (pre ++ post).length < fuel →
    flag_parse_loop fuel c (pre ++ post) =
      flag_parse_loop (post.length + 1)
        { c1 with rest_argc := c.rest_argc, rest_argv := c.rest_argv } post := by
  intro fuel1
  induction fuel1 with
  | zero => intro c pre c1 h; rw [flag_parse_loop_zero] at h; cases h
  | succ fuel1 ih =>
    intro c pre c1 h hrest hmem post fuel hfuel
    cases pre with
    | nil =>
      rw [flag_parse_loop_nil] at h
      simp only [Option.some.injEq, Prod.mk.injEq, and_true] at h
      subst h
      have hc : ({ { c with rest_argc := 0, rest_argv := ([] : List CStr) } with
          rest_argc := c.rest_argc, rest_argv := c.rest_argv }) = c := by
        cases c
        rfl
      rw [List.nil_append, hc]
      exact loop_fuel_irrel fuel (post.length + 1) c post (by simpa using hfuel) (by omega)
    | cons flag pre =>
      cases hd : starts_with_dash flag with
      | false =>
        rw [flag_parse_loop_positional hd] at h
        simp only [Option.some.injEq, Prod.mk.injEq, and_true] at h
        subst h
        simp at hrest
      | true =>
        by_cases h2 : flag = ['-', '-']
        · exact absurd (by simp [h2]) hmem
        · cases hinner : flag_inner flag.tail c.flags pre false with
          | fail e en fl =>
            rw [flag_parse_loop_dash_fail hd h2 hinner] at h
            simp at h
          | done fl args1 found =>
            cases found with
            | false =>
              rw [flag_parse_loop_dash_unknown hd h2 hinner] at h
              simp at h
            | true =>
              rw [flag_parse_loop_dash_found hd h2 hinner] at h
              obtain ⟨eaten, he⟩ := inner_consumed _ _ _ _ _ _ hinner
              have hmem1 : ['-', '-'] ∉ args1 := by
                intro hx
                exact hmem (by
                  rw [he] at hmem ⊢
                  exact List.mem_cons_of_mem _ (List.mem_append_right _ hx))
              have hlen1 : args1.length ≤ pre.length := by
                have := congrArg List.length he
                simp only [List.length_append] at this
                omega
              cases fuel with
              | zero => exact absurd hfuel (Nat.not_lt_zero _)
              | succ fuel =>
                have hinner2 : flag_inner flag.tail c.flags (pre ++ post) false =
                    .done fl (args1 ++ post) true := inner_ext _ _ _ _ _ _ hinner post
                rw [List.cons_append, flag_parse_loop_dash_found hd h2 hinner2]
                have hfuel2 : (args1 ++ post).length < fuel := by
                  simp only [List.length_append, List.cons_append, List.length_cons] at hfuel ⊢
                  omega
                exact ih { c with flags := fl } args1 c1 h hrest hmem1 post fuel hfuel2

/-- Frame property of a full loop run: the input splits into the consumed
tokens and an untouched tail (on success the tail is exactly the leftovers,
possibly preceded by the dropped terminator), and any registered flag whose
name is not the dash-stripped form of a consumed dash token is left exactly as
it was. -/
theorem loop_frame : ∀ fuel c args r, flag_parse_loop fuel c args = some r →
    ∃ consumed rest0, args = consumed ++ rest0 ∧
      (r.2 = true → rest0 = r.1.rest_argv ∨ rest0 = ['-', '-'] :: r.1.rest_argv) ∧
      ∀ j f, c.flags.get? j = some f →
        (∀ tok ∈ consumed, starts_with_dash tok = true → f.name ≠ tok.tail) →
        r.1.flags.get? j = some f := by
  intro fuel
  induction fuel with
  | zero => intro c args r h; rw [flag_parse_loop_zero] at h; cases h
  | succ fuel ih =>
    intro c args r h
    cases args with
    | nil =>
      rw [flag_parse_loop_nil] at h
      simp only [Option.some.injEq] at h
      subst h
      exact ⟨[], [], rfl, fun _ => Or.inl rfl, fun j f hj _ => hj⟩
    | cons flag args =>
      cases hd : starts_with_dash flag with
      | false =>
        rw [flag_parse_loop_positional hd] at h
        simp only [Option.some.injEq] at h
        subst h
        exact ⟨[], flag :: args, rfl, fun _ => Or.inl rfl, fun j f hj _ => hj⟩
      | true =>
        by_cases h2 : flag = ['-', '-']
        · subst h2
          rw [flag_parse_loop_term] at h
          simp only [Option.some.injEq] at h
          subst h
          exact ⟨[], ['-', '-'] :: args, rfl, fun _ => Or.inr rfl, fun j f hj _ => hj⟩
        · cases hinner : flag_inner flag.tail c.flags args false with
          | fail e en fl =>
            rw [flag_parse_loop_dash_fail hd h2 hinner] at h
            simp only [Option.some.injEq] at h
            subst h
            refine ⟨flag :: args, [], by simp, by simp, fun j f hj hc => ?_⟩
            have hn : f.name ≠ flag.tail := hc flag (by simp) hd
            have := inner_frame c.flags args false j f hj hn
            rw [hinner] at this
            simpa [innerFlags] using this
          | done fl args1 found =>
            cases found with
            | false =>
              rw [flag_parse_loop_dash_unknown hd h2 hinner] at h
              simp only [Option.some.injEq] at h
              subst h
              refine ⟨flag :: args, [], by simp, by simp, fun j f hj hc => ?_⟩
              have hn : f.name ≠ flag.tail := hc flag (by simp) hd
              have := inner_frame c.flags args false j f hj hn
              rw [hinner] at this
              simpa [innerFlags] using this
            | true =>
              rw [flag_parse_loop_dash_found hd h2 hinner] at h
              obtain ⟨eaten, he⟩ := inner_consumed _ _ _ _ _ _ hinner
              obtain ⟨consumed1, rest0, happ, hpin, hframe⟩ :=
                ih { c with flags := fl } args1 r h
              refine ⟨flag :: (eaten ++ consumed1), rest0, ?_, hpin, fun j f hj hc => ?_⟩
              · rw [he, happ]
                simp
              · have hn : f.name ≠ flag.tail := hc flag (by simp) hd
                have hfl : fl.get? j = some f := by
                  have := inner_frame c.flags args false j f hj hn
                  rw [hinner] at this
                  simpa [innerFlags] using this
                refine hframe j f hfl (fun tok htok hdt => ?_)
                exact hc tok (by simp [htok]) hdt

/-! ### Lemmas about `strtoull10` -/

theorem digit_not_space {ch : Char} (h : ch.isDigit = true) : isSpaceC ch = false := by
  cases hs : isSpaceC ch
  · rfl
  · exfalso
    simp only [isSpaceC, Bool.or_eq_true, decide_eq_true_eq] at hs
    rcases hs with ((((h1 | h1) | h1) | h1) | h1) | h1 <;> subst h1 <;>
      exact absurd h (by decide)

theorem digit_ne_dash {ch : Char} (h : ch.isDigit = true) : ¬(ch = '-') := by
  intro hc
  subst hc
  exact absurd h (by decide)

theorem digit_ne_plus {ch : Char} (h : ch.isDigit = true) : ¬(ch = '+') := by
  intro hc
  subst hc
  exact absurd h (by decide)

theorem takeWhile_cons_false {p : Char → Bool} {a : Char} (h : p a = false) (l : CStr) :
    (a :: l).takeWhile p = [] := by
  simp [List.takeWhile, h]

theorem dropWhile_cons_false {p : Char → Bool} {a : Char} (h : p a = false) (l : CStr) :
    (a :: l).dropWhile p = a :: l := by
  simp [List.dropWhile, h]

theorem takeWhile_digits : ∀ v : CStr, (∀ ch ∈ v, ch.isDigit = true) →
    v.takeWhile Char.isDigit = v := by
  intro v
  induction v with
  | nil => intro _; rfl
  | cons a l ih =>
    intro h
    rw [List.takeWhile, h a (by simp), ih (fun ch hc => h ch (by simp [hc]))]

theorem takeWhile_digits_junk {j : Char} (hj : j.isDigit = false) (t : CStr) :
    ∀ ds : CStr, (∀ ch ∈ ds, ch.isDigit = true) →
    (ds ++ j :: t).takeWhile Char.isDigit = ds := by
  intro ds
  induction ds with
  | nil => intro _; exact takeWhile_cons_false hj t
  | cons a l ih =>
    intro h
    rw [List.cons_append, List.takeWhile, h a (by simp), ih (fun ch hc => h ch (by simp [hc]))]

/-- The conversion phase on a tail whose digit prefix is exactly `ds` followed
by `junk` that starts with a non-digit (or is empty). -/
theorem strtoull10_core_split (neg : Bool) (signLen wsLen : Nat) (ds junk : CStr)
    (hne : ds ≠ []) (h : (ds ++ junk).takeWhile Char.isDigit = ds) :
    strtoull10_core neg signLen wsLen (ds ++ junk) =
      if ULLONG_MAX < digitsVal ds then (ULLONG_MAX, wsLen + signLen + ds.length, true)
      else ((if neg then (2 ^ 64 - digitsVal ds) % 2 ^ 64 else digitsVal ds),
            wsLen + signLen + ds.length, false) := by
  rw [strtoull10_core, h, if_neg hne]

/-- `strtoull` on a non-empty all-digit token: the whole token converts. -/
theorem strtoull10_digits (v : CStr) (hne : v ≠ []) (h : ∀ ch ∈ v, ch.isDigit = true) :
    strtoull10 v =
      if ULLONG_MAX < digitsVal v then (ULLONG_MAX, v.length, true)
      else (digitsVal v, v.length, false) := by
  cases v with
  | nil => exact absurd rfl hne
  | cons d rest =>
    have hd : d.isDigit = true := h d (by simp)
    have hsp : isSpaceC d = false := digit_not_space hd
    rw [strtoull10.eq_def]
    simp only [takeWhile_cons_false hsp, dropWhile_cons_false hsp, List.length_nil,
      if_neg (digit_ne_dash hd), if_neg (digit_ne_plus hd)]
    have := strtoull10_core_split false 0 0 (d :: rest) [] (by simp)
      (by simpa using takeWhile_digits _ h)
    simpa using this

/-- `strtoull` on a minus sign followed by a non-empty all-digit token: the
whole token converts, negating the digits' value modulo `2 ^ 64`. -/
theorem strtoull10_neg_digits (ds : CStr) (hne : ds ≠ []) (h : ∀ ch ∈ ds, ch.isDigit = true) :
    strtoull10 ('-' :: ds) =
      if ULLONG_MAX < digitsVal ds then (ULLONG_MAX, 1 + ds.length, true)
      else ((2 ^ 64 - digitsVal ds) % 2 ^ 64, 1 + ds.length, false) := by
  have hsp : isSpaceC '-' = false := by decide
  rw [strtoull10.eq_def]
  simp only [takeWhile_cons_false hsp, dropWhile_cons_false hsp, List.length_nil, if_pos rfl]
  have := strtoull10_core_split true 1 0 ds [] hne
    (by simpa using takeWhile_digits _ h)
  simpa using this

/-- `strtoull` on a non-empty digit run followed by a non-digit: only the run
converts, leaving the junk behind `endptr`. -/
theorem strtoull10_digits_junk {j : Char} (hj : j.isDigit = false) (t : CStr) (ds : CStr)
    (hne : ds ≠ []) (h : ∀ ch ∈ ds, ch.isDigit = true) :
    strtoull10 (ds ++ j :: t) =
      if ULLONG_MAX < digitsVal ds then (ULLONG_MAX, ds.length, true)
      else (digitsVal ds, ds.length, false) := by
  cases ds with
  | nil => exact absurd rfl hne
  | cons d rest =>
    have hd : d.isDigit = true := h d (by simp)
    have hsp : isSpaceC d = false := digit_not_space hd
    rw [List.cons_append, strtoull10.eq_def]
    simp only [takeWhile_cons_false hsp, dropWhile_cons_false hsp, List.length_nil,
      if_neg (digit_ne_dash hd), if_neg (digit_ne_plus hd)]
    have := strtoull10_core_split false 0 0 (d :: rest) (j :: t) (by simp)
      (takeWhile_digits_junk hj t _ h)
    simpa using this

theorem mem_of_mem_dropWhile {p : Char → Bool} : ∀ (l : CStr) (a : Char),
    a ∈ l.dropWhile p → a ∈ l := by
  intro l
  induction l with
  | nil => intro a h; simp at h
  | cons x xs ih =>
    intro a h
    cases hp : p x
    · simp only [List.dropWhile, hp] at h
      exact h
    · simp only [List.dropWhile, hp] at h
      exact List.mem_cons_of_mem x (ih a h)

theorem takeWhile_no_digits (l : CStr) (h : ∀ ch ∈ l, ch.isDigit = false) :
    l.takeWhile Char.isDigit = [] := by
  cases l with
  | nil => rfl
  | cons a t => exact takeWhile_cons_false (h a (by simp)) t

/-- `strtoull` on a token containing no digit at all (empty, pure sign,
whitespace, letters, ...): no conversion is performed and `endptr` stays at
the start. -/
theorem strtoull10_no_digits (v : CStr) (h : ∀ ch ∈ v, ch.isDigit = false) :
    strtoull10 v = (0, 0, false) := by
  have hsub : ∀ ch ∈ v.dropWhile isSpaceC, ch.isDigit = false :=
    fun ch hc => h ch (mem_of_mem_dropWhile v ch hc)
  rw [strtoull10.eq_def]
  cases hdw : v.dropWhile isSpaceC with
  | nil => rfl
  | cons ch r2 =>
    have hch : ch.isDigit = false := hsub ch (by rw [hdw]; simp)
    have hr2 : ∀ x ∈ r2, x.isDigit = false := fun x hx => hsub x (by rw [hdw]; simp [hx])
    by_cases h1 : ch = '-'
    · subst h1
      simp [strtoull10_core, takeWhile_no_digits r2 hr2]
    · by_cases h2 : ch = '+'
      · subst h2
        simp [strtoull10_core, takeWhile_no_digits r2 hr2]
      · simp [h1, h2, strtoull10_core, takeWhile_cons_false hch r2]

theorem takeWhile_space_append {d : Char} (hd : isSpaceC d = false) (t : CStr) :
    ∀ w : CStr, (∀ ch ∈ w, isSpaceC ch = true) → (w ++ d :: t).takeWhile isSpaceC = w := by
  intro w
  induction w with
  | nil => intro _; exact takeWhile_cons_false hd t
  | cons a l ih =>
    intro h
    rw [List.cons_append, List.takeWhile, h a (by simp), ih (fun ch hc => h ch (by simp [hc]))]

theorem dropWhile_space_append {d : Char} (hd : isSpaceC d = false) (t : CStr) :
    ∀ w : CStr, (∀ ch ∈ w, isSpaceC ch = true) → (w ++ d :: t).dropWhile isSpaceC = d :: t := by
  intro w
  induction w with
  | nil => intro _; exact dropWhile_cons_false hd t
  | cons a l ih =>
    intro h
    rw [List.cons_append, List.dropWhile, h a (by simp), ih (fun ch hc => h ch (by simp [hc]))]

/-- `strtoull` on leading whitespace followed by a non-empty all-digit run:
the whitespace is skipped and the whole token converts. -/
theorem strtoull10_ws_digits (w v : CStr) (hw : ∀ ch ∈ w, isSpaceC ch = true) (hv : v ≠ [])
    (hd : ∀ ch ∈ v, ch.isDigit = true) :
    strtoull10 (w ++ v) =
      if ULLONG_MAX < digitsVal v then (ULLONG_MAX, w.length + v.length, true)
      else (digitsVal v, w.length + v.length, false) := by
  cases v with
  | nil => exact absurd rfl hv
  | cons d rest =>
    have hdd : d.isDigit = true := hd d (by simp)
    have hsp : isSpaceC d = false := digit_not_space hdd
    rw [strtoull10.eq_def]
    simp only [dropWhile_space_append hsp rest w hw, takeWhile_space_append hsp rest w hw,
      if_neg (digit_ne_dash hdd), if_neg (digit_ne_plus hdd)]
    have := strtoull10_core_split false 0 w.length (d :: rest) [] (by simp)
      (by simpa using takeWhile_digits _ hd)
    simpa using this

/-- `strtoull` on a plus sign followed by a non-empty all-digit run: the whole
token converts to the digits' value (no negation). -/
theorem strtoull10_plus_digits (ds : CStr) (hne : ds ≠ []) (h : ∀ ch ∈ ds, ch.isDigit = true) :
    strtoull10 ('+' :: ds) =
      if ULLONG_MAX < digitsVal ds then (ULLONG_MAX, 1 + ds.length, true)
      else (digitsVal ds, 1 + ds.length, false) := by
  have hsp : isSpaceC '+' = false := by decide
  rw [strtoull10.eq_def]
  simp only [takeWhile_cons_false hsp, dropWhile_cons_false hsp, List.length_nil,
    if_neg (by decide : ¬(('+' : Char) = '-')), if_pos rfl]
  have := strtoull10_core_split false 1 0 ds [] hne (by simpa using takeWhile_digits _ h)
  simpa using this

/-! ### Registry scan at a uniquely named flag -/

/-- Scanning for a string flag whose name occurs exactly once: with no value
token the scan fails with `FLAG_ERROR_NO_VALUE`; otherwise the next token is
stored verbatim and the scan falls through having consumed it. -/
theorem inner_unique_str {n : CStr} {f : Flag} {pre post : List Flag} (hf : f.name = n)
    (ht : f.type = .FLAG_STR) (hpre : ∀ g ∈ pre, g.name ≠ n) (hpost : ∀ g ∈ post, g.name ≠ n)
    (found : Bool) :
    (flag_inner n (pre ++ f :: post) [] found =
      .fail .FLAG_ERROR_NO_VALUE n (pre ++ f :: post)) ∧
    (∀ v args, flag_inner n (pre ++ f :: post) (v :: args) found =
      .done (pre ++ { f with val := .as_str v } :: post) args true) := by
  constructor
  · rw [inner_skip pre (f :: post) [] found hpre, flag_inner_cons_str_nil hf ht,
      innerConsAll_fail]
  · intro v args
    rw [inner_skip pre (f :: post) (v :: args) found hpre, flag_inner_cons_str hf ht,
      inner_nomatch post args true hpost, innerCons, innerConsAll_done]

/-- Scanning for a `uint64` flag whose name occurs exactly once, by the shape
of `strtoull`'s outcome on the value token. -/
theorem inner_unique_u64 {n : CStr} {f : Flag} {pre post : List Flag} (hf : f.name = n)
    (ht : f.type = .FLAG_UINT64) (hpre : ∀ g ∈ pre, g.name ≠ n)
    (hpost : ∀ g ∈ post, g.name ≠ n) (found : Bool) :
    (flag_inner n (pre ++ f :: post) [] found =
      .fail .FLAG_ERROR_NO_VALUE n (pre ++ f :: post)) ∧
    (∀ a args, ((strtoull10 a).2.1 = 0 ∨ (strtoull10 a).2.1 ≠ a.length) →
      flag_inner n (pre ++ f :: post) (a :: args) found =
        .fail .FLAG_ERROR_INVALID_NUMBER n (pre ++ f :: post)) ∧
    (∀ a args, ¬((strtoull10 a).2.1 = 0 ∨ (strtoull10 a).2.1 ≠ a.length) →
      (strtoull10 a).2.2 = true →
      flag_inner n (pre ++ f :: post) (a :: args) found =
        .fail .FLAG_ERROR_INTEGER_OVERFLOW n (pre ++ f :: post)) ∧
    (∀ a args, ¬((strtoull10 a).2.1 = 0 ∨ (strtoull10 a).2.1 ≠ a.length) →
      (strtoull10 a).2.2 = false →
      flag_inner n (pre ++ f :: post) (a :: args) found =
        .done (pre ++ { f with val := .as_uint64 (strtoull10 a).1 } :: post) args true) := by
  refine ⟨?_, ?_, ?_, ?_⟩
  · rw [inner_skip pre (f :: post) [] found hpre, flag_inner_cons_u64_nil hf ht,
      innerConsAll_fail]
  · intro a args hk
    rw [inner_skip pre (f :: post) (a :: args) found hpre,
      flag_inner_cons_u64_invalid hf ht hk, innerConsAll_fail]
  · intro a args hk ho
    rw [inner_skip pre (f :: post) (a :: args) found hpre,
      flag_inner_cons_u64_overflow hf ht hk ho, innerConsAll_fail]
  · intro a args hk ho
    rw [inner_skip pre (f :: post) (a :: args) found hpre,
      flag_inner_cons_u64_ok hf ht hk ho, inner_nomatch post args true hpost, innerCons,
      innerConsAll_done]

/-- `flag_print_error` reads only the error slot. -/
theorem flag_print_error_congr {a b : Flag_Context} (h1 : a.flag_error = b.flag_error)
    (h2 : a.flag_error_name = b.flag_error_name) :
    flag_print_error a = flag_print_error b := by
  rw [flag_print_error.eq_def, flag_print_error.eq_def, h1, h2]

/-! ### The claims -/

/-- Claim C1: whenever the parse loop's next token does not start with a dash,
`flag_parse` stops immediately with success, the leftover arguments
(`rest_argc`/`rest_argv`) are exactly the entire remaining suffix including
that token, and no flag value (indeed no field but the leftover pair) is
modified by that token or any later token. -/
theorem claim_C1 (fuel : Nat) (c : Flag_Context) (prog a : CStr) (args : List CStr)
    (h : starts_with_dash a = false) :
    flag_parse_loop (fuel + 1) c (a :: args) =
      some ({ c with rest_argc := args.length + 1, rest_argv := a :: args }, true) ∧
    flag_parse c (prog :: a :: args) =
      some ({ c with rest_argc := args.length + 1, rest_argv := a :: args }, true) :=
  ⟨flag_parse_loop_positional h fuel c args,
   flag_parse_loop_positional h (args.length + 1) c args⟩

/-- Witness for C1 at the spec's own example `["prog", "foo", "-verbose"]`
(shortened tokens): leftovers are exactly `["foo", "-verbose"]`. -/
theorem claim_C1_witness :
    starts_with_dash ['f'] = false ∧
    flag_parse ⟨[], .FLAG_NO_ERROR, none, 0, []⟩ [['p'], ['f'], ['-', 'v']] =
      some (⟨[], .FLAG_NO_ERROR, none, 2, [['f'], ['-', 'v']]⟩, true) :=
  ⟨by decide,
   (claim_C1 0 ⟨[], .FLAG_NO_ERROR, none, 0, []⟩ ['p'] ['f'] [['-', 'v']] (by decide)).2⟩

/-- Claim C2: a dash token other than `--` whose stripped name matches no
declared flag makes `flag_parse` record `FLAG_ERROR_UNKNOWN` with that name and
return failure immediately — no later token is processed, nothing else in the
context changes, and this holds for every registry satisfying the no-match
hypothesis. -/
theorem claim_C2 (fuel : Nat) (c : Flag_Context) (prog tok : CStr) (args : List CStr)
    (h1 : starts_with_dash tok = true) (h2 : tok ≠ ['-', '-'])
    (h3 : ∀ g ∈ c.flags, g.name ≠ tok.tail) :
    flag_parse_loop (fuel + 1) c (tok :: args) =
      some ({ c with flag_error := .FLAG_ERROR_UNKNOWN, flag_error_name := some tok.tail },
        false) ∧
    flag_parse c (prog :: tok :: args) =
      some ({ c with flag_error := .FLAG_ERROR_UNKNOWN, flag_error_name := some tok.tail },
        false) := by
  have hin : flag_inner tok.tail c.flags args false = .done c.flags args false :=
    inner_nomatch c.flags args false h3
  exact ⟨flag_parse_loop_dash_unknown h1 h2 hin fuel,
    flag_parse_loop_dash_unknown h1 h2 hin (args.length + 1)⟩

/-- Witness for C2: `["prog", "-u", "x"]` against a registry declaring only a
boolean `v` fails with `UnknownFlag`/`"u"` and processes nothing further. -/
theorem claim_C2_witness :
    starts_with_dash ['-', 'u'] = true ∧ ['-', 'u'] ≠ ['-', '-'] ∧
    flag_parse
        ⟨[⟨.FLAG_BOOL, ['v'], [], .as_bool false, .as_bool false⟩],
          .FLAG_NO_ERROR, none, 0, []⟩
        [['p'], ['-', 'u'], ['x']] =
      some (⟨[⟨.FLAG_BOOL, ['v'], [], .as_bool false, .as_bool false⟩],
        .FLAG_ERROR_UNKNOWN, some ['u'], 0, []⟩, false) :=
  ⟨by decide, by decide,
   (claim_C2 1
     ⟨[⟨.FLAG_BOOL, ['v'], [], .as_bool false, .as_bool false⟩], .FLAG_NO_ERROR, none, 0, []⟩
     ['p'] ['-', 'u'] [['x']] (by decide) (by decide) (by decide)).2⟩

/-- Claim C6: the bare terminator `--` is consumed without entering the
leftovers, parsing stops with success, the leftovers are exactly the tokens
after it, and no flag value is affected by anything after the terminator. -/
theorem claim_C6 (fuel : Nat) (c : Flag_Context) (prog : CStr) (args : List CStr) :
    flag_parse_loop (fuel + 1) c (['-', '-'] :: args) =
      some ({ c with rest_argc := args.length, rest_argv := args }, true) ∧
    flag_parse c (prog :: ['-', '-'] :: args) =
      some ({ c with rest_argc := args.length, rest_argv := args }, true) :=
  ⟨flag_parse_loop_term fuel c args, flag_parse_loop_term (args.length + 1) c args⟩

/-- Claim C10: a bare `-` token is looked up as a flag with the empty name:
when no flag is declared under the empty name, `flag_parse` fails with
`FLAG_ERROR_UNKNOWN` paired with the empty string — it is neither treated as a
positional argument nor as a terminator. -/
theorem claim_C10 (fuel : Nat) (c : Flag_Context) (prog : CStr) (args : List CStr)
    (h : ∀ g ∈ c.flags, g.name ≠ ([] : CStr)) :
    flag_parse_loop (fuel + 1) c (['-'] :: args) =
      some ({ c with flag_error := .FLAG_ERROR_UNKNOWN, flag_error_name := some [] }, false) ∧
    flag_parse c (prog :: ['-'] :: args) =
      some ({ c with flag_error := .FLAG_ERROR_UNKNOWN, flag_error_name := some [] }, false) := by
  have hin : flag_inner (['-'] : CStr).tail c.flags args false = .done c.flags args false :=
    inner_nomatch c.flags args false h
  exact ⟨flag_parse_loop_dash_unknown (by decide) (by decide) hin fuel,
    flag_parse_loop_dash_unknown (by decide) (by decide) hin (args.length + 1)⟩

/-- Witness for C10: `["prog", "-"]` against a registry declaring a boolean
`v` fails with `UnknownFlag` and the empty name. -/
theorem claim_C10_witness :
    flag_parse
        ⟨[⟨.FLAG_BOOL, ['v'], [], .as_bool false, .as_bool false⟩],
          .FLAG_NO_ERROR, none, 0, []⟩
        [['p'], ['-']] =
      some (⟨[⟨.FLAG_BOOL, ['v'], [], .as_bool false, .as_bool false⟩],
        .FLAG_ERROR_UNKNOWN, some [], 0, []⟩, false) :=
  (claim_C10 0
    ⟨[⟨.FLAG_BOOL, ['v'], [], .as_bool false, .as_bool false⟩], .FLAG_NO_ERROR, none, 0, []⟩
    ['p'] [] (by decide)).2

/-- Counterexample to claim C4: a failed parse (`["prog", "-u"]`, unknown
flag) records an error; a subsequent parse of `["prog", "-v"]` from the
resulting context returns success, yet the error slot still holds
`FLAG_ERROR_UNKNOWN` with name `u` — nothing ever clears it — and
`flag_print_error` after the success still prints the stale message. -/
theorem claim_C4_counterexample :
    flag_parse
        ⟨[⟨.FLAG_BOOL, ['v'], [], .as_bool false, .as_bool false⟩],
          .FLAG_NO_ERROR, none, 0, []⟩
        [['p'], ['-', 'u']] =
      some (⟨[⟨.FLAG_BOOL, ['v'], [], .as_bool false, .as_bool false⟩],
        .FLAG_ERROR_UNKNOWN, some ['u'], 0, []⟩, false) ∧
    flag_parse
        ⟨[⟨.FLAG_BOOL, ['v'], [], .as_bool false, .as_bool false⟩],
          .FLAG_ERROR_UNKNOWN, some ['u'], 0, []⟩
        [['p'], ['-', 'v']] =
      some (⟨[⟨.FLAG_BOOL, ['v'], [], .as_bool true, .as_bool false⟩],
        .FLAG_ERROR_UNKNOWN, some ['u'], 0, []⟩, true) ∧
    (⟨[⟨.FLAG_BOOL, ['v'], [], .as_bool true, .as_bool false⟩],
      .FLAG_ERROR_UNKNOWN, some ['u'], 0, []⟩ : Flag_Context).flag_error ≠ .FLAG_NO_ERROR ∧
    flag_print_error
        ⟨[⟨.FLAG_BOOL, ['v'], [], .as_bool true, .as_bool false⟩],
          .FLAG_ERROR_UNKNOWN, some ['u'], 0, []⟩ =
      "ERROR: -u: unknown flag\n".toList := by
  refine ⟨by decide, by decide, by decide, by decide⟩

/-- Claim C4 as amended: a parse pass that returns success leaves the error
slot (kind and name) exactly as it was on entry — `flag_parse` never clears
it, so an error recorded by an earlier failed pass persists through a later
successful pass, and `flag_print_error` prints the same (possibly stale) line
before and after that success. -/
theorem claim_C4_amended (c : Flag_Context) (argv : List CStr) (c1 : Flag_Context)
    (h : flag_parse c argv = some (c1, true)) :
    c1.flag_error = c.flag_error ∧ c1.flag_error_name = c.flag_error_name ∧
    flag_print_error c1 = flag_print_error c := by
  cases argv with
  | nil => simp [flag_parse] at h
  | cons prog args =>
    obtain ⟨h1, h2⟩ := loop_success_error (args.length + 1) c args c1 h
    exact ⟨h1, h2, flag_print_error_congr h1 h2⟩

/-- Witness for the amended C4: the successful pass of `["prog", "-v"]` from a
context holding a stale `UnknownFlag`/`"u"` error preserves the slot and the
printed message. -/
theorem claim_C4_witness :
    (⟨[⟨.FLAG_BOOL, ['v'], [], .as_bool true, .as_bool false⟩],
        .FLAG_ERROR_UNKNOWN, some ['u'], 0, []⟩ : Flag_Context).flag_error =
      (⟨[⟨.FLAG_BOOL, ['v'], [], .as_bool false, .as_bool false⟩],
        .FLAG_ERROR_UNKNOWN, some ['u'], 0, []⟩ : Flag_Context).flag_error ∧
    (⟨[⟨.FLAG_BOOL, ['v'], [], .as_bool true, .as_bool false⟩],
        .FLAG_ERROR_UNKNOWN, some ['u'], 0, []⟩ : Flag_Context).flag_error_name =
      (⟨[⟨.FLAG_BOOL, ['v'], [], .as_bool false, .as_bool false⟩],
        .FLAG_ERROR_UNKNOWN, some ['u'], 0, []⟩ : Flag_Context).flag_error_name ∧
    flag_print_error
        ⟨[⟨.FLAG_BOOL, ['v'], [], .as_bool true, .as_bool false⟩],
          .FLAG_ERROR_UNKNOWN, some ['u'], 0, []⟩ =
      flag_print_error
        ⟨[⟨.FLAG_BOOL, ['v'], [], .as_bool false, .as_bool false⟩],
          .FLAG_ERROR_UNKNOWN, some ['u'], 0, []⟩ :=
  claim_C4_amended
    ⟨[⟨.FLAG_BOOL, ['v'], [], .as_bool false, .as_bool false⟩],
      .FLAG_ERROR_UNKNOWN, some ['u'], 0, []⟩
    [['p'], ['-', 'v']]
    ⟨[⟨.FLAG_BOOL, ['v'], [], .as_bool true, .as_bool false⟩],
      .FLAG_ERROR_UNKNOWN, some ['u'], 0, []⟩
    (by decide)

/-- Counterexample to claim C5: the value token `-5` for a `uint64` flag is
not fully numeric, so per the claim it should fail with `InvalidNumber`; in
fact `strtoull` accepts the sign and the parse SUCCEEDS, storing
`2 ^ 64 - 5 = 18446744073709551611`. -/
theorem claim_C5_counterexample :
    flag_parse
        ⟨[⟨.FLAG_UINT64, ['c'], [], .as_uint64 0, .as_uint64 0⟩],
          .FLAG_NO_ERROR, none, 0, []⟩
        [['p'], ['-', 'c'], ['-', '5']] =
      some (⟨[⟨.FLAG_UINT64, ['c'], [], .as_uint64 18446744073709551611, .as_uint64 0⟩],
        .FLAG_NO_ERROR, none, 0, []⟩, true) := by
  decide

/-- Claim C5 as amended: for a `uint64` flag (name occurring once in the
registry), the value token is parsed per C `strtoull` base 10.  With no
following token the parse fails with `MissingValue` and the flag's name.  An
all-digit token is stored when below `2 ^ 64` and fails with `IntegerOverflow`
at or above it.  An empty token, a token containing no digit at all, or a
digit run followed by trailing characters, fails with `InvalidNumber`.  But
the token need not be fully numeric: `strtoull` also accepts leading
whitespace and one optional sign, so whitespace-led digits and `'+'`-signed
digits are accepted and stored, a `'-'` followed by digits is accepted and
stored negated modulo `2 ^ 64`, and a `'-'`-signed digit magnitude at or above
`2 ^ 64` fails with `IntegerOverflow`. -/
theorem claim_C5_amended (fuel : Nat) (c : Flag_Context) (f : Flag) (pre post : List Flag)
    (n : CStr) (hflags : c.flags = pre ++ f :: post) (hpre : ∀ g ∈ pre, g.name ≠ n)
    (hpost : ∀ g ∈ post, g.name ≠ n) (hf : f.name = n) (ht : f.type = .FLAG_UINT64)
    (hdash : n ≠ ['-']) :
    (flag_parse_loop (fuel + 1) c [('-' :: n)] =
      some ({ c with flag_error := .FLAG_ERROR_NO_VALUE, flag_error_name := some n }, false)) ∧
    (∀ v args, v ≠ [] → (∀ ch ∈ v, ch.isDigit = true) → digitsVal v < 2 ^ 64 →
      flag_parse_loop (fuel + 1) c (('-' :: n) :: v :: args) =
        flag_parse_loop fuel
          { c with flags := pre ++ { f with val := .as_uint64 (digitsVal v) } :: post } args) ∧
    (∀ v args, v ≠ [] → (∀ ch ∈ v, ch.isDigit = true) → 2 ^ 64 ≤ digitsVal v →
      flag_parse_loop (fuel + 1) c (('-' :: n) :: v :: args) =
        some ({ c with flag_error := .FLAG_ERROR_INTEGER_OVERFLOW, flag_error_name := some n },
          false)) ∧
    (∀ args, flag_parse_loop (fuel + 1) c (('-' :: n) :: [] :: args) =
      some ({ c with flag_error := .FLAG_ERROR_INVALID_NUMBER, flag_error_name := some n },
        false)) ∧
    (∀ ds j t args, ds ≠ [] → (∀ ch ∈ ds, ch.isDigit = true) → j.isDigit = false →
      flag_parse_loop (fuel + 1) c (('-' :: n) :: (ds ++ j :: t) :: args) =
        some ({ c with flag_error := .FLAG_ERROR_INVALID_NUMBER, flag_error_name := some n },
          false)) ∧
    (∀ ds args, ds ≠ [] → (∀ ch ∈ ds, ch.isDigit = true) → digitsVal ds < 2 ^ 64 →
      flag_parse_loop (fuel + 1) c (('-' :: n) :: ('-' :: ds) :: args) =
        flag_parse_loop fuel
          { c with flags :=
              pre ++ { f with val := .as_uint64 ((2 ^ 64 - digitsVal ds) % 2 ^ 64) } :: post }
          args) ∧
    (∀ v args, (∀ ch ∈ v, ch.isDigit = false) →
      flag_parse_loop (fuel + 1) c (('-' :: n) :: v :: args) =
        some ({ c with flag_error := .FLAG_ERROR_INVALID_NUMBER, flag_error_name := some n },
          false)) ∧
    (∀ w v args, (∀ ch ∈ w, isSpaceC ch = true) → v ≠ [] → (∀ ch ∈ v, ch.isDigit = true) →
      digitsVal v < 2 ^ 64 →
      flag_parse_loop (fuel + 1) c (('-' :: n) :: (w ++ v) :: args) =
        flag_parse_loop fuel
          { c with flags := pre ++ { f with val := .as_uint64 (digitsVal v) } :: post } args) ∧
    (∀ v args, v ≠ [] → (∀ ch ∈ v, ch.isDigit = true) → digitsVal v < 2 ^ 64 →
      flag_parse_loop (fuel + 1) c (('-' :: n) :: ('+' :: v) :: args) =
        flag_parse_loop fuel
          { c with flags := pre ++ { f with val := .as_uint64 (digitsVal v) } :: post } args) ∧
    (∀ ds args, ds ≠ [] → (∀ ch ∈ ds, ch.isDigit = true) → 2 ^ 64 ≤ digitsVal ds →
      flag_parse_loop (fuel + 1) c (('-' :: n) :: ('-' :: ds) :: args) =
        some ({ c with flag_error := .FLAG_ERROR_INTEGER_OVERFLOW, flag_error_name := some n },
          false)) := by
  have htok1 : starts_with_dash ('-' :: n) = true := by simp [starts_with_dash]
  have htok2 : ('-' :: n) ≠ ['-', '-'] := by simpa using hdash
  have hM : ULLONG_MAX = 2 ^ 64 - 1 := rfl
  have h64 : (2 : Nat) ^ 64 = 18446744073709551616 := by norm_num
  have U := inner_unique_u64 hf ht hpre hpost false
  refine ⟨?_, ?_, ?_, ?_, ?_, ?_, ?_, ?_, ?_, ?_⟩
  · have hin := U.1
    rw [← hflags] at hin
    exact flag_parse_loop_dash_fail htok1 htok2 hin fuel
  · intro v args hv hdig hlt
    have hlen : v.length ≠ 0 := by simpa [List.length_eq_zero] using hv
    have hs : strtoull10 v = (digitsVal v, v.length, false) := by
      rw [strtoull10_digits v hv hdig, if_neg (by omega)]
    have hk : ¬((strtoull10 v).2.1 = 0 ∨ (strtoull10 v).2.1 ≠ v.length) := by
      rw [hs]
      simp [hlen]
    have ho : (strtoull10 v).2.2 = false := by rw [hs]
    have hin := U.2.2.2 v args hk ho
    rw [hs, ← hflags] at hin
    exact flag_parse_loop_dash_found htok1 htok2 hin fuel
  · intro v args hv hdig hge
    have hlen : v.length ≠ 0 := by simpa [List.length_eq_zero] using hv
    have hs : strtoull10 v = (ULLONG_MAX, v.length, true) := by
      rw [strtoull10_digits v hv hdig, if_pos (by omega)]
    have hk : ¬((strtoull10 v).2.1 = 0 ∨ (strtoull10 v).2.1 ≠ v.length) := by
      rw [hs]
      simp [hlen]
    have ho : (strtoull10 v).2.2 = true := by rw [hs]
    have hin := U.2.2.1 v args hk ho
    rw [← hflags] at hin
    exact flag_parse_loop_dash_fail htok1 htok2 hin fuel
  · intro args
    have hin := U.2.1 [] args (Or.inl rfl)
    rw [← hflags] at hin
    exact flag_parse_loop_dash_fail htok1 htok2 hin fuel
  · intro ds j t args hds hdig hj
    have hk1 : (strtoull10 (ds ++ j :: t)).2.1 = ds.length := by
      rw [strtoull10_digits_junk hj t ds hds hdig]
      split <;> rfl
    have hk : (strtoull10 (ds ++ j :: t)).2.1 = 0 ∨
        (strtoull10 (ds ++ j :: t)).2.1 ≠ (ds ++ j :: t).length := by
      refine Or.inr ?_
      rw [hk1, List.length_append, List.length_cons]
      omega
    have hin := U.2.1 (ds ++ j :: t) args hk
    rw [← hflags] at hin
    exact flag_parse_loop_dash_fail htok1 htok2 hin fuel
  · intro ds args hds hdig hlt
    have hs : strtoull10 ('-' :: ds) =
        ((2 ^ 64 - digitsVal ds) % 2 ^ 64, 1 + ds.length, false) := by
      rw [strtoull10_neg_digits ds hds hdig, if_neg (by omega)]
    have hk : ¬((strtoull10 ('-' :: ds)).2.1 = 0 ∨
        (strtoull10 ('-' :: ds)).2.1 ≠ ('-' :: ds).length) := by
      rw [hs]
      simp only [List.length_cons, not_or, ne_eq, not_not]
      omega
    have ho : (strtoull10 ('-' :: ds)).2.2 = false := by rw [hs]
    have hin := U.2.2.2 ('-' :: ds) args hk ho
    rw [hs, ← hflags] at hin
    exact flag_parse_loop_dash_found htok1 htok2 hin fuel
  · intro v args hnd
    have hs : strtoull10 v = (0, 0, false) := strtoull10_no_digits v hnd
    have hin := U.2.1 v args (Or.inl (by rw [hs]))
    rw [← hflags] at hin
    exact flag_parse_loop_dash_fail htok1 htok2 hin fuel
  · intro w v args hw hv hdig hlt
    have hvlen : v.length ≠ 0 := by simpa [List.length_eq_zero] using hv
    have hs : strtoull10 (w ++ v) = (digitsVal v, w.length + v.length, false) := by
      rw [strtoull10_ws_digits w v hw hv hdig, if_neg (by omega)]
    have hk : ¬((strtoull10 (w ++ v)).2.1 = 0 ∨
        (strtoull10 (w ++ v)).2.1 ≠ (w ++ v).length) := by
      rw [hs]
      simp only [List.length_append, not_or, ne_eq, not_not, and_true]
      omega
    have ho : (strtoull10 (w ++ v)).2.2 = false := by rw [hs]
    have hin := U.2.2.2 (w ++ v) args hk ho
    rw [hs, ← hflags] at hin
    exact flag_parse_loop_dash_found htok1 htok2 hin fuel
  · intro v args hv hdig hlt
    have hvlen : v.length ≠ 0 := by simpa [List.length_eq_zero] using hv
    have hs : strtoull10 ('+' :: v) = (digitsVal v, 1 + v.length, false) := by
      rw [strtoull10_plus_digits v hv hdig, if_neg (by omega)]
    have hk : ¬((strtoull10 ('+' :: v)).2.1 = 0 ∨
        (strtoull10 ('+' :: v)).2.1 ≠ ('+' :: v).length) := by
      rw [hs]
      simp only [List.length_cons, not_or, ne_eq, not_not]
      omega
    have ho : (strtoull10 ('+' :: v)).2.2 = false := by rw [hs]
    have hin := U.2.2.2 ('+' :: v) args hk ho
    rw [hs, ← hflags] at hin
    exact flag_parse_loop_dash_found htok1 htok2 hin fuel
  · intro ds args hds hdig hge
    have hs : strtoull10 ('-' :: ds) = (ULLONG_MAX, 1 + ds.length, true) := by
      rw [strtoull10_neg_digits ds hds hdig, if_pos (by omega)]
    have hk : ¬((strtoull10 ('-' :: ds)).2.1 = 0 ∨
        (strtoull10 ('-' :: ds)).2.1 ≠ ('-' :: ds).length) := by
      rw [hs]
      simp only [List.length_cons, not_or, ne_eq, not_not]
      omega
    have ho : (strtoull10 ('-' :: ds)).2.2 = true := by rw [hs]
    have hin := U.2.2.1 ('-' :: ds) args hk ho
    rw [← hflags] at hin
    exact flag_parse_loop_dash_fail htok1 htok2 hin fuel

/-- Witness for the amended C5: `-c 42` stores 42 in the `uint64` flag `c` and
parsing continues. -/
theorem claim_C5_witness :
    (['4', '2'] : CStr) ≠ [] ∧ digitsVal ['4', '2'] < 2 ^ 64 ∧
    flag_parse_loop 2
        ⟨[⟨.FLAG_UINT64, ['c'], [], .as_uint64 0, .as_uint64 0⟩],
          .FLAG_NO_ERROR, none, 0, []⟩
        [['-', 'c'], ['4', '2']] =
      flag_parse_loop 1
        ⟨[⟨.FLAG_UINT64, ['c'], [], .as_uint64 42, .as_uint64 0⟩],
          .FLAG_NO_ERROR, none, 0, []⟩ [] :=
  ⟨by decide, by decide,
   (claim_C5_amended 1
     ⟨[⟨.FLAG_UINT64, ['c'], [], .as_uint64 0, .as_uint64 0⟩], .FLAG_NO_ERROR, none, 0, []⟩
     ⟨.FLAG_UINT64, ['c'], [], .as_uint64 0, .as_uint64 0⟩ [] [] ['c']
     rfl (by decide) (by decide) rfl rfl (by decide)).2.1
     ['4', '2'] [] (by decide) (by decide) (by decide)⟩

/-- Claim C7: for a string flag (name occurring once in the registry), a
matching token with no further argument fails with `MissingValue` paired with
the flag's name; otherwise the immediately following token — any text at all,
including text starting with a dash or equal to another declared flag's
token — is stored verbatim as the new current value and parsing continues
after it. -/
theorem claim_C7 (fuel : Nat) (c : Flag_Context) (f : Flag) (pre post : List Flag) (n : CStr)
    (hflags : c.flags = pre ++ f :: post) (hpre : ∀ g ∈ pre, g.name ≠ n)
    (hpost : ∀ g ∈ post, g.name ≠ n) (hf : f.name = n) (ht : f.type = .FLAG_STR)
    (hdash : n ≠ ['-']) :
    (flag_parse_loop (fuel + 1) c [('-' :: n)] =
      some ({ c with flag_error := .FLAG_ERROR_NO_VALUE, flag_error_name := some n }, false)) ∧
    (∀ v args, flag_parse_loop (fuel + 1) c (('-' :: n) :: v :: args) =
      flag_parse_loop fuel { c with flags := pre ++ { f with val := .as_str v } :: post }
        args) := by
  have htok1 : starts_with_dash ('-' :: n) = true := by simp [starts_with_dash]
  have htok2 : ('-' :: n) ≠ ['-', '-'] := by simpa using hdash
  have U := inner_unique_str hf ht hpre hpost false
  constructor
  · have hin := U.1
    rw [← hflags] at hin
    exact flag_parse_loop_dash_fail htok1 htok2 hin fuel
  · intro v args
    have hin := U.2 v args
    rw [← hflags] at hin
    exact flag_parse_loop_dash_found htok1 htok2 hin fuel

/-- Witness for C7: `-s -x` against a registry declaring the string flag `s`
and a boolean flag `x` stores the dash-prefixed token `-x` verbatim as `s`'s
value. -/
theorem claim_C7_witness :
    flag_parse_loop 2
        ⟨[⟨.FLAG_STR, ['s'], [], .as_str [], .as_str []⟩,
          ⟨.FLAG_BOOL, ['x'], [], .as_bool false, .as_bool false⟩],
          .FLAG_NO_ERROR, none, 0, []⟩
        [['-', 's'], ['-', 'x']] =
      flag_parse_loop 1
        ⟨[⟨.FLAG_STR, ['s'], [], .as_str ['-', 'x'], .as_str []⟩,
          ⟨.FLAG_BOOL, ['x'], [], .as_bool false, .as_bool false⟩],
          .FLAG_NO_ERROR, none, 0, []⟩ [] :=
  (claim_C7 1
    ⟨[⟨.FLAG_STR, ['s'], [], .as_str [], .as_str []⟩,
      ⟨.FLAG_BOOL, ['x'], [], .as_bool false, .as_bool false⟩],
      .FLAG_NO_ERROR, none, 0, []⟩
    ⟨.FLAG_STR, ['s'], [], .as_str [], .as_str []⟩
    [] [⟨.FLAG_BOOL, ['x'], [], .as_bool false, .as_bool false⟩] ['s']
    rfl (by decide) (by decide) rfl rfl (by decide)).2 ['-', 'x'] []

/-- Claim C8: no rollback on failure.  First, a failed pass equals the run of
the error suffix started from the state holding every value assigned by the
successfully consumed prefix — those assignments are kept, not undone.
Second, a flag whose name is the dash-stripped form of no consumed token keeps
exactly the value it had before the failed pass. -/
theorem claim_C8 :
    (∀ c prog pre post c1 c2,
      flag_parse c (prog :: pre) = some (c1, true) → c1.rest_argv = [] →
      ['-', '-'] ∉ pre →
      flag_parse c (prog :: (pre ++ post)) = some (c2, false) →
      flag_parse { c1 with rest_argc := c.rest_argc, rest_argv := c.rest_argv }
        (prog :: post) = some (c2, false)) ∧
    (∀ c prog args c2, flag_parse c (prog :: args) = some (c2, false) →
      ∃ consumed rest0, args = consumed ++ rest0 ∧
        ∀ j f, c.flags.get? j = some f →
          (∀ tok ∈ consumed, starts_with_dash tok = true → f.name ≠ tok.tail) →
          c2.flags.get? j = some f) := by
  constructor
  · intro c prog pre post c1 c2 h1 hrest hmem h2
    have hseq := parse_seq (pre.length + 1) c pre c1 h1 hrest hmem post
      ((pre ++ post).length + 1) (Nat.lt_succ_self _)
    show flag_parse_loop (post.length + 1)
      { c1 with rest_argc := c.rest_argc, rest_argv := c.rest_argv } post = some (c2, false)
    rw [← hseq]
    exact h2
  · intro c prog args c2 h
    obtain ⟨consumed, rest0, happ, _, hframe⟩ :=
      loop_frame (args.length + 1) c args (c2, false) h
    exact ⟨consumed, rest0, happ, hframe⟩

/-- Witness for C8: parsing `["prog", "-v", "-u"]` fails at `-u`, and the
failing state equals the continuation from the state where `-v` had already
set the boolean flag to `true` — the earlier assignment is kept. -/
theorem claim_C8_witness :
    flag_parse
        ⟨[⟨.FLAG_BOOL, ['v'], [], .as_bool false, .as_bool false⟩],
          .FLAG_NO_ERROR, none, 0, []⟩
        [['p'], ['-', 'v']] =
      some (⟨[⟨.FLAG_BOOL, ['v'], [], .as_bool true, .as_bool false⟩],
        .FLAG_NO_ERROR, none, 0, []⟩, true) ∧
    flag_parse
        ⟨[⟨.FLAG_BOOL, ['v'], [], .as_bool false, .as_bool false⟩],
          .FLAG_NO_ERROR, none, 0, []⟩
        [['p'], ['-', 'v'], ['-', 'u']] =
      some (⟨[⟨.FLAG_BOOL, ['v'], [], .as_bool true, .as_bool false⟩],
        .FLAG_ERROR_UNKNOWN, some ['u'], 0, []⟩, false) ∧
    flag_parse
        ⟨[⟨.FLAG_BOOL, ['v'], [], .as_bool true, .as_bool false⟩],
          .FLAG_NO_ERROR, none, 0, []⟩
        [['p'], ['-', 'u']] =
      some (⟨[⟨.FLAG_BOOL, ['v'], [], .as_bool true, .as_bool false⟩],
        .FLAG_ERROR_UNKNOWN, some ['u'], 0, []⟩, false) :=
  ⟨by decide, by decide,
   claim_C8.1
     ⟨[⟨.FLAG_BOOL, ['v'], [], .as_bool false, .as_bool false⟩], .FLAG_NO_ERROR, none, 0, []⟩
     ['p'] [['-', 'v']] [['-', 'u']]
     ⟨[⟨.FLAG_BOOL, ['v'], [], .as_bool true, .as_bool false⟩], .FLAG_NO_ERROR, none, 0, []⟩
     ⟨[⟨.FLAG_BOOL, ['v'], [], .as_bool true, .as_bool false⟩],
       .FLAG_ERROR_UNKNOWN, some ['u'], 0, []⟩
     (by decide) (by decide) (by decide) (by decide)⟩

/-- Claim C9: every declaration function (`flag_bool`, `flag_uint64`,
`flag_str`) appends a flag whose current value IS the supplied default, and a
parse pass leaves every flag untouched whose name is not the dash-stripped
form of a consumed dash-prefixed token; hence such a flag's current value
after parsing is still the declared default. -/
theorem claim_C9 :
    (∀ c n d desc c2, flag_bool c n d desc = some c2 →
      c2.flags = c.flags ++
        [{ type := .FLAG_BOOL, name := n, desc := desc, val := .as_bool d,
           defVal := .as_bool d }]) ∧
    (∀ c n d desc c2, flag_uint64 c n d desc = some c2 →
      c2.flags = c.flags ++
        [{ type := .FLAG_UINT64, name := n, desc := desc, val := .as_uint64 d,
           defVal := .as_uint64 d }]) ∧
    (∀ c n d desc c2, flag_str c n d desc = some c2 →
      c2.flags = c.flags ++
        [{ type := .FLAG_STR, name := n, desc := desc, val := .as_str d,
           defVal := .as_str d }]) ∧
    (∀ fuel c args r, flag_parse_loop fuel c args = some r →
      ∃ consumed rest0, args = consumed ++ rest0 ∧
        (r.2 = true → rest0 = r.1.rest_argv ∨ rest0 = ['-', '-'] :: r.1.rest_argv) ∧
        ∀ j f, c.flags.get? j = some f →
          (∀ tok ∈ consumed, starts_with_dash tok = true → f.name ≠ tok.tail) →
          r.1.flags.get? j = some f) := by
  refine ⟨?_, ?_, ?_, ?_⟩
  · intro c n d desc c2 h
    rw [flag_bool] at h
    split at h
    · cases h
      rfl
    · cases h
  · intro c n d desc c2 h
    rw [flag_uint64] at h
    split at h
    · cases h
      rfl
    · cases h
  · intro c n d desc c2 h
    rw [flag_str] at h
    split at h
    · cases h
      rfl
    · cases h
  · intro fuel c args r h
    exact loop_frame fuel c args r h

/-- Witness for C9: declaring boolean `v` with default `false` appends the
flag with current value equal to the default. -/
theorem claim_C9_witness :
    flag_bool ⟨[], .FLAG_NO_ERROR, none, 0, []⟩ ['v'] false [] =
      some ⟨[⟨.FLAG_BOOL, ['v'], [], .as_bool false, .as_bool false⟩],
        .FLAG_NO_ERROR, none, 0, []⟩ ∧
    (⟨[⟨.FLAG_BOOL, ['v'], [], .as_bool false, .as_bool false⟩],
        .FLAG_NO_ERROR, none, 0, []⟩ : Flag_Context).flags =
      ([] : List Flag) ++
        [⟨.FLAG_BOOL, ['v'], [], .as_bool false, .as_bool false⟩] :=
  ⟨by decide,
   claim_C9.1 ⟨[], .FLAG_NO_ERROR, none, 0, []⟩ ['v'] false []
     ⟨[⟨.FLAG_BOOL, ['v'], [], .as_bool false, .as_bool false⟩], .FLAG_NO_ERROR, none, 0, []⟩
     (by decide)⟩

end FlagH
